import Mathlib

/-!
Verification of the call-graph accumulation core of `tracing-callgraph`
(src/lib.rs), shallowly embedded in Lean.

The source keeps a `GraphMap<&'static str, usize, Directed>` behind an
`Arc<Mutex<_>>`.  We model the graph as a list of nodes (in insertion order)
together with an association list from ordered node pairs to `usize` weights,
which is exactly the observable content of a directed `GraphMap`: at most one
entry per ordered pair, nodes and edges iterated in insertion order.
-/

/-- An edge list: ordered pairs of node names mapped to a weight
(`usize` edge weights; weights stay small, so plain `Nat` is faithful). -/
abbrev Edges := List ((String × String) × Nat)

/-- Model of `type CallGraph = GraphMap<&'static str, usize, Directed>`. -/
structure CallGraph where
  nodes : List String
  edges : Edges
deriving Repr, DecidableEq

/-- Lookup in the edge map: the weight stored under ordered pair `p`, if any
(`GraphMap` keeps its edges in an index map keyed by the node pair). -/
def lookupW : Edges → (String × String) → Option Nat
  | [], _ => none
  | e :: es, p => if e.1 = p then some e.2 else lookupW es p

/-- Insert into the edge map: overwrite the weight stored under `p` in place
if present, append a new entry otherwise (index-map insertion order). -/
def setW : Edges → (String × String) → Nat → Edges
  | [], p, w => [(p, w)]
  | e :: es, p, w => if e.1 = p then (p, w) :: es else e :: setW es p w

namespace CallGraph

/-- `GraphMap::new()` — the empty graph. -/
def new : CallGraph := { nodes := [], edges := [] }

/-- `GraphMap::add_node`: inserting an already-present node is a no-op,
otherwise the node is appended in insertion order. -/
def add_node (g : CallGraph) (n : String) : CallGraph :=
  if n ∈ g.nodes then g else { g with nodes := g.nodes ++ [n] }

/-- `GraphMap::remove_node`: removes the node and every edge incident to it
(in either direction). -/
def remove_node (g : CallGraph) (n : String) : CallGraph :=
  { nodes := g.nodes.filter (fun m => m != n),
    edges := g.edges.filter (fun e => e.1.1 != n && e.1.2 != n) }

/-- `GraphMap::edge_weight` for a directed edge `a -> b`. -/
def edge_weight (g : CallGraph) (a b : String) : Option Nat :=
  lookupW g.edges (a, b)

/-- Store weight `w` under the ordered pair `p` (the shared update step of
`add_edge` and of the `*weight += 1` through `edge_weight_mut`). -/
def update_edge (g : CallGraph) (p : String × String) (w : Nat) : CallGraph :=
  { g with edges := setW g.edges p w }

/-- `GraphMap::add_edge a b w`: inserts both endpoints if missing, then sets
the weight of edge `a -> b`. -/
def add_edge (g : CallGraph) (a b : String) (w : Nat) : CallGraph :=
  ((g.add_node a).add_node b).update_edge (a, b) w

/-- The list of ordered pairs currently carrying an edge. -/
def edgeKeys (g : CallGraph) : List (String × String) := g.edges.map (fun e => e.1)

end CallGraph

/-- Model of `GraphLayer { graph: Arc<Mutex<CallGraph>>, top_node: Option<&str> }`.
The mutex serialises access; each operation below is one critical section. -/
structure GraphLayer where
  graph : CallGraph
  top_node : Option String
deriving Repr, DecidableEq

namespace GraphLayer

/-- `GraphLayer::new()`. -/
def new : GraphLayer := { graph := CallGraph.new, top_node := none }

/-- `GraphLayer::disable_top_node`: if a top node is active, remove it (and
its incident edges) and clear the designation; otherwise a no-op. -/
def disable_top_node (l : GraphLayer) : GraphLayer :=
  match l.top_node with
  | some name => { graph := l.graph.remove_node name, top_node := none }
  | none => l

/-- `GraphLayer::enable_top_node`: first disables any prior top node, then
records `name` as the top node and inserts it as a graph node. -/
def enable_top_node (l : GraphLayer) (name : String) : GraphLayer :=
  let l := l.disable_top_node
  { graph := l.graph.add_node name, top_node := some name }

/-- `Layer::on_enter`: add a node for the entered span's name; resolve the
caller as the parent span's name if present, else the top node if enabled,
else return with only the node added; then increment the caller→span edge
weight if the edge exists, otherwise add it with weight 1. -/
def on_enter (l : GraphLayer) (span : String) (parent : Option String) : GraphLayer :=
  let g := l.graph.add_node span
  match parent.orElse (fun _ => l.top_node) with
  | none => { l with graph := g }
  | some a =>
    match g.edge_weight a span with
    | some w => { l with graph := g.update_edge (a, span) (w + 1) }
    | none => { l with graph := g.add_edge a span 1 }

end GraphLayer

/-- One span-entry observation as delivered by the tracing framework:
the span's own name and, if any, its parent span's name. -/
structure Obs where
  span : String
  parent : Option String
deriving Repr, DecidableEq

/-- Run a sequence of span-entry observations through `on_enter`. -/
def GraphLayer.runObs (l : GraphLayer) (s : List Obs) : GraphLayer :=
  s.foldl (fun st o => st.on_enter o.span o.parent) l

/-- The caller→callee pair an observation contributes under a fixed top-node
configuration: the parent if present, else the top node, else nothing. -/
def callerPair (top : Option String) (o : Obs) : Option (String × String) :=
  (o.parent.orElse (fun _ => top)).map (fun a => (a, o.span))

/-- How many observations of `s` contribute the pair `(a, b)`. -/
def countPair (top : Option String) (s : List Obs) (a b : String) : Nat :=
  (s.filter (fun o => callerPair top o == some (a, b))).length

/-- An initial layer with a fixed top-node configuration: `GraphLayer::new()`,
optionally followed by one `enable_top_node`. -/
def layerInit (top : Option String) : GraphLayer :=
  match top with
  | none => GraphLayer.new
  | some t => GraphLayer.new.enable_top_node t

/-- Adding `k` observations of a pair to an optional existing weight. -/
def addCount (w : Option Nat) (k : Nat) : Option Nat :=
  match w with
  | some v => some (v + k)
  | none => if k = 0 then none else some k

/-- One public operation on a `GraphLayer`. -/
inductive Op where
  | observe (span : String) (parent : Option String)
  | enable (name : String)
  | disable
deriving Repr, DecidableEq

/-- Apply one operation. -/
def Op.apply (op : Op) (l : GraphLayer) : GraphLayer :=
  match op with
  | .observe s p => l.on_enter s p
  | .enable n => l.enable_top_node n
  | .disable => l.disable_top_node

/-- Operations that remove the currently active top node (and its incident
edges), namely `disable_top_node` and the disabling step of `enable_top_node`. -/
def Op.removesTop : Op → Bool
  | .observe _ _ => false
  | .enable _ => true
  | .disable => true

/-- Run a sequence of public operations. -/
def GraphLayer.runOps (l : GraphLayer) (ops : List Op) : GraphLayer :=
  ops.foldl (fun st op => op.apply st) l

/-- Model of the error kinds of the crate's error module (`mod error`), as
used by `lib.rs`: `Kind::CreateFile { path, source }` for a failed
`File::create`, `Kind::FlushFile(source)` for a failed write or flush.
I/O error sources are modelled as strings. -/
inductive Kind where
  | CreateFile (path : String) (source : String)
  | FlushFile (source : String)
deriving Repr, DecidableEq

/-- Model of `pub struct Error(Kind)`. -/
structure Error where
  kind : Kind
deriving Repr, DecidableEq

/-- Model of the guard's writer `W: Write`: the chunks successfully written
so far, plus whether the next `write` or `flush` call on the sink fails. -/
structure Sink where
  written : List String
  writeFails : Bool
  flushFails : Bool
deriving Repr, DecidableEq

/-- Model of `FlushGuard { graph: Arc<Mutex<CallGraph>>, writer: W }`.
The `graph` field is the guard's view of the shared graph at flush time. -/
structure FlushGuard where
  graph : CallGraph
  writer : Sink
deriving Repr, DecidableEq

/-- Index of a node name in the node list (nodes are rendered by index in the
`dot` output). -/
def nodeIdx : List String → String → Nat
  | [], _ => 0
  | n :: ns, x => if n == x then 0 else nodeIdx ns x + 1

/-- Model of the `dot` rendering `format!("{:?}", Dot::new(&graph))`: one
declaration per node in insertion order, then one declaration per directed
edge labelled with its weight.  Any deterministic function of the node and
edge lists is a faithful model of the exporter. -/
def CallGraph.dot (g : CallGraph) : String :=
  "digraph \x7b\n"
  ++ String.join (g.nodes.enum.map
       (fun p => "    " ++ toString p.1 ++ " [ label = \"" ++ p.2 ++ "\" ]\n"))
  ++ String.join (g.edges.map
       (fun e => "    " ++ toString (nodeIdx g.nodes e.1.1) ++ " -> "
         ++ toString (nodeIdx g.nodes e.1.2)
         ++ " [ label = \"" ++ toString e.2 ++ "\" ]\n"))
  ++ "\x7d"

/-- Outcome of `FlushGuard::flush`: either the thread panics (poisoned lock
observed while not already panicking) or a `Result<(), Error>` is returned. -/
inductive FlushResult where
  | panicked
  | returned (r : Except Error Unit)
deriving Repr

/-- Model of `FlushGuard::flush`.  `poisoned` says whether `self.graph.lock()`
finds the mutex poisoned; `panicking` models `std::thread::panicking()`.
On a healthy lock it writes one `dot` snapshot followed by a newline
(`writeln!`), then flushes the sink, surfacing either failure as
`Kind::FlushFile`. -/
def FlushGuard.flush (g : FlushGuard) (poisoned panicking : Bool) :
    FlushResult × FlushGuard :=
  if poisoned then
    if !panicking then (.panicked, g)
    else (.returned (.ok ()), g)
  else
    if g.writer.writeFails then
      (.returned (.error ⟨.FlushFile "write failed"⟩), g)
    else
      let w := { g.writer with written := g.writer.written ++ [g.graph.dot ++ "\n"] }
      if w.flushFails then
        (.returned (.error ⟨.FlushFile "flush failed"⟩), { g with writer := w })
      else
        (.returned (.ok ()), { g with writer := w })

/-- Outcome of `Drop for FlushGuard`: either the panic from `flush` escapes
the destructor, or the destructor finishes, carrying the error (if any) that
was handed to `Error::report` and the final guard state. -/
inductive DropResult where
  | panicked
  | finished (reported : Option Error) (g : FlushGuard)
deriving Repr

/-- Model of `Drop for FlushGuard`: one `flush` call; `Ok(_)` is discarded and
`Err(e)` is reported via `e.report()`. -/
def FlushGuard.dropGuard (g : FlushGuard) (poisoned panicking : Bool) : DropResult :=
  match g.flush poisoned panicking with
  | (.panicked, _) => .panicked
  | (.returned (.ok _), g') => .finished none g'
  | (.returned (.error e), g') => .finished (some e) g'

/-- Whether a `DropResult` is a panic escaping the destructor. -/
def DropResult.isPanic : DropResult → Bool
  | .panicked => true
  | .finished _ _ => false

/-- The error reported through the side channel during drop, if any. -/
def DropResult.reported : DropResult → Option Error
  | .panicked => none
  | .finished e _ => e

/-- The chunks present on the writer after the destructor finished. -/
def DropResult.writtenOut : DropResult → Option (List String)
  | .panicked => none
  | .finished _ g => some g.writer.written

/-- Model of `GraphLayer::with_file`.  `createOk` says whether
`File::create(path)` succeeds; `ioErr` is the I/O error source on failure;
`wf`/`ff` parameterise the future failure behaviour of the created sink.
On success: a fresh empty layer and a guard sharing its graph, with a
buffered writer to which nothing has been written yet. -/
def GraphLayer.with_file (createOk : Bool) (path ioErr : String) (wf ff : Bool) :
    Except Error (GraphLayer × FlushGuard) :=
  if createOk then
    let layer := GraphLayer.new
    .ok (layer, { graph := layer.graph, writer := { written := [], writeFails := wf, flushFails := ff } })
  else
    .error ⟨.CreateFile path ioErr⟩

example : (GraphLayer.new.runObs
    [⟨"inner", some "outer_a"⟩, ⟨"inner", some "outer_b"⟩,
     ⟨"outer_a", none⟩, ⟨"outer_b", none⟩]).graph.edges
  = [(("outer_a", "inner"), 1), (("outer_b", "inner"), 1)] := by decide

example : ((layerInit (some "root")).runObs
    [⟨"inner", some "outer_a"⟩, ⟨"inner", some "outer_b"⟩,
     ⟨"outer_a", none⟩, ⟨"outer_b", none⟩]).graph.edges
  = [(("outer_a", "inner"), 1), (("outer_b", "inner"), 1),
     (("root", "outer_a"), 1), (("root", "outer_b"), 1)] := by decide

example : (GraphLayer.new.runObs
    [⟨"inner", some "outer_a"⟩, ⟨"inner", some "outer_a"⟩]).graph.edges
  = [(("outer_a", "inner"), 2)] := by decide


/-! ### Edge-map lemmas -/

lemma lookupW_setW (es : Edges) (p q : String × String) (w : Nat) :
    lookupW (setW es p w) q = if p = q then some w else lookupW es q := by
  induction es with
  | nil =>
    by_cases h : p = q <;> simp [setW, lookupW, h]
  | cons e es ih =>
    by_cases hep : e.1 = p
    · by_cases hpq : p = q
      · simp [setW, lookupW, hep, hpq]
      · have : ¬ e.1 = q := fun h => hpq ((hep.symm.trans h))
        simp [setW, lookupW, hep, hpq, this]
    · by_cases heq : e.1 = q
      · have hpq : ¬ p = q := fun h => hep (h ▸ heq)
        have hqp : ¬ q = p := fun h => hpq h.symm
        simp [setW, lookupW, hep, heq, hpq, hqp]
      · simp [setW, lookupW, hep, heq, ih]

lemma keys_setW_of_some (es : Edges) (p : String × String) (w v : Nat)
    (h : lookupW es p = some v) :
    (setW es p w).map (fun e => e.1) = es.map (fun e => e.1) := by
  induction es with
  | nil => simp [lookupW] at h
  | cons e es ih =>
    by_cases hep : e.1 = p
    · simp [setW, hep]
    · simp [lookupW, hep] at h
      simp [setW, hep, ih h]

lemma keys_setW_of_none (es : Edges) (p : String × String) (w : Nat)
    (h : lookupW es p = none) :
    (setW es p w).map (fun e => e.1) = es.map (fun e => e.1) ++ [p] := by
  induction es with
  | nil => simp [setW]
  | cons e es ih =>
    by_cases hep : e.1 = p
    · simp [lookupW, hep] at h
    · simp [lookupW, hep] at h
      simp [setW, hep, ih h]

lemma lookupW_eq_none_of_not_mem_keys (es : Edges) (p : String × String)
    (h : ¬ p ∈ es.map (fun e => e.1)) : lookupW es p = none := by
  induction es with
  | nil => rfl
  | cons e es ih =>
    simp only [List.map_cons, List.mem_cons] at h
    push_neg at h
    simp [lookupW, Ne.symm h.1, ih h.2]

lemma not_mem_keys_of_lookupW_eq_none (es : Edges) (p : String × String)
    (h : lookupW es p = none) : ¬ p ∈ es.map (fun e => e.1) := by
  induction es with
  | nil => simp
  | cons e es ih =>
    by_cases hep : e.1 = p
    · simp [lookupW, hep] at h
    · simp [lookupW, hep] at h
      simp only [List.map_cons, List.mem_cons]
      push_neg
      exact ⟨fun hc => hep hc.symm, ih h⟩

lemma lookupW_filter_incident (es : Edges) (n : String) (q : String × String) :
    lookupW (es.filter (fun e => e.1.1 != n && e.1.2 != n)) q
      = if q.1 = n ∨ q.2 = n then none else lookupW es q := by
  induction es with
  | nil => by_cases h : q.1 = n ∨ q.2 = n <;> simp [lookupW, h]
  | cons e es ih =>
    by_cases hkeep : (e.1.1 != n && e.1.2 != n) = true
    · by_cases heq : e.1 = q
      · have hq : ¬ q.1 = n ∧ ¬ q.2 = n := by
          simp only [bne_iff_ne, Bool.and_eq_true, ne_eq] at hkeep
          rw [heq] at hkeep
          exact hkeep
        simp [List.filter_cons, hkeep, lookupW, heq, hq.1, hq.2]
      · simp [List.filter_cons, hkeep, lookupW, heq, ih]
    · have hdrop : e.1.1 = n ∨ e.1.2 = n := by
        simp only [bne_iff_ne, Bool.and_eq_true, ne_eq] at hkeep
        tauto
      by_cases heq : e.1 = q
      · have hq : q.1 = n ∨ q.2 = n := heq ▸ hdrop
        simp [List.filter_cons, hkeep, lookupW, hq, ih]
      · simp [List.filter_cons, hkeep, lookupW, heq, ih]

/-! ### Graph-operation lemmas -/

lemma CallGraph.edges_add_node (g : CallGraph) (n : String) :
    (g.add_node n).edges = g.edges := by
  unfold CallGraph.add_node
  split <;> rfl

lemma CallGraph.edge_weight_add_node (g : CallGraph) (n a b : String) :
    (g.add_node n).edge_weight a b = g.edge_weight a b := by
  unfold CallGraph.edge_weight
  rw [CallGraph.edges_add_node]

lemma CallGraph.edge_weight_update_edge (g : CallGraph) (p : String × String) (w : Nat)
    (a b : String) :
    (g.update_edge p w).edge_weight a b
      = if p = (a, b) then some w else g.edge_weight a b := by
  unfold CallGraph.edge_weight CallGraph.update_edge
  exact lookupW_setW _ _ _ _

lemma CallGraph.edge_weight_add_edge (g : CallGraph) (a b x y : String) (w : Nat) :
    (g.add_edge a b w).edge_weight x y
      = if (a, b) = (x, y) then some w else g.edge_weight x y := by
  unfold CallGraph.add_edge
  rw [CallGraph.edge_weight_update_edge]
  rw [CallGraph.edge_weight_add_node, CallGraph.edge_weight_add_node]

lemma CallGraph.edge_weight_remove_node (g : CallGraph) (n x y : String) :
    (g.remove_node n).edge_weight x y
      = if x = n ∨ y = n then none else g.edge_weight x y := by
  unfold CallGraph.edge_weight CallGraph.remove_node
  exact lookupW_filter_incident _ _ _

lemma GraphLayer.on_enter_top (l : GraphLayer) (span : String) (parent : Option String) :
    (l.on_enter span parent).top_node = l.top_node := by
  unfold GraphLayer.on_enter
  cases hc : parent.orElse (fun _ => l.top_node) with
  | none => simp only [hc]
  | some a =>
    simp only [hc]
    cases hw : (l.graph.add_node span).edge_weight a span <;> simp only [hw]

/-- The weight update performed by one `on_enter` call, as seen through
`edge_weight`. -/
lemma GraphLayer.edge_weight_on_enter (l : GraphLayer) (o : Obs) (x y : String) :
    (l.on_enter o.span o.parent).graph.edge_weight x y
      = if callerPair l.top_node o = some (x, y)
        then some ((l.graph.edge_weight x y).getD 0 + 1)
        else l.graph.edge_weight x y := by
  unfold GraphLayer.on_enter callerPair
  cases hc : o.parent.orElse (fun _ => l.top_node) with
  | none => simp [hc, CallGraph.edge_weight_add_node]
  | some a =>
    simp only [hc, Option.map_some']
    cases hw : (l.graph.add_node o.span).edge_weight a o.span with
    | some w =>
      simp only [hw]
      have hw' : l.graph.edge_weight a o.span = some w := by
        rw [CallGraph.edge_weight_add_node] at hw; exact hw
      rw [CallGraph.edge_weight_update_edge]
      by_cases hxy : (a, o.span) = (x, y)
      · have hx : a = x := congrArg Prod.fst hxy
        have hy : o.span = y := congrArg Prod.snd hxy
        subst hx; subst hy
        simp [hw']
      · simp [hxy, CallGraph.edge_weight_add_node]
    | none =>
      simp only [hw]
      have hw' : l.graph.edge_weight a o.span = none := by
        rw [CallGraph.edge_weight_add_node] at hw; exact hw
      rw [CallGraph.edge_weight_add_edge]
      by_cases hxy : (a, o.span) = (x, y)
      · have hx : a = x := congrArg Prod.fst hxy
        have hy : o.span = y := congrArg Prod.snd hxy
        subst hx; subst hy
        simp [hw']
      · simp [hxy, CallGraph.edge_weight_add_node]

/-! ### Run-level characterization of edge weights -/

lemma addCount_zero (w : Option Nat) : addCount w 0 = w := by
  cases w <;> simp [addCount]

lemma addCount_step (w : Option Nat) (c : Nat) :
    addCount (some (w.getD 0 + 1)) c = addCount w (c + 1) := by
  cases w <;> simp [addCount] <;> omega

lemma countPair_cons (top : Option String) (o : Obs) (s : List Obs) (x y : String) :
    countPair top (o :: s) x y
      = (if callerPair top o = some (x, y) then 1 else 0) + countPair top s x y := by
  unfold countPair
  by_cases h : callerPair top o = some (x, y)
  · simp [List.filter_cons, h, Nat.add_comm]
  · simp [List.filter_cons, h]

lemma GraphLayer.runObs_cons (l : GraphLayer) (o : Obs) (s : List Obs) :
    l.runObs (o :: s) = (l.on_enter o.span o.parent).runObs s := rfl

lemma GraphLayer.runObs_top (s : List Obs) (l : GraphLayer) :
    (l.runObs s).top_node = l.top_node := by
  induction s generalizing l with
  | nil => rfl
  | cons o s ih => rw [GraphLayer.runObs_cons, ih, GraphLayer.on_enter_top]

lemma GraphLayer.edge_weight_runObs (s : List Obs) (l : GraphLayer) (x y : String) :
    (l.runObs s).graph.edge_weight x y
      = addCount (l.graph.edge_weight x y) (countPair l.top_node s x y) := by
  induction s generalizing l with
  | nil =>
    simp only [GraphLayer.runObs, List.foldl_nil]
    rw [show countPair l.top_node [] x y = 0 from rfl, addCount_zero]
  | cons o s ih =>
    rw [GraphLayer.runObs_cons, ih, GraphLayer.on_enter_top,
      GraphLayer.edge_weight_on_enter, countPair_cons]
    by_cases h : callerPair l.top_node o = some (x, y)
    · simp only [h, if_pos, if_true]
      rw [addCount_step, Nat.add_comm]
    · simp [h]

lemma layerInit_top (top : Option String) : (layerInit top).top_node = top := by
  cases top <;> rfl

lemma layerInit_edge_weight (top : Option String) (x y : String) :
    (layerInit top).graph.edge_weight x y = none := by
  cases top <;> rfl

lemma layerInit_edgeKeys (top : Option String) : (layerInit top).graph.edgeKeys = [] := by
  cases top <;> rfl

/-! ### Uniqueness of edges per ordered pair -/

lemma CallGraph.edgeKeys_add_node (g : CallGraph) (n : String) :
    (g.add_node n).edgeKeys = g.edgeKeys := by
  unfold CallGraph.edgeKeys
  rw [CallGraph.edges_add_node]

lemma GraphLayer.edgeKeys_on_enter (l : GraphLayer) (o : Obs) :
    (l.on_enter o.span o.parent).graph.edgeKeys = l.graph.edgeKeys ∨
    ∃ p, lookupW l.graph.edges p = none ∧
      (l.on_enter o.span o.parent).graph.edgeKeys = l.graph.edgeKeys ++ [p] := by
  unfold GraphLayer.on_enter
  cases hc : o.parent.orElse (fun _ => l.top_node) with
  | none =>
    left
    simp only [hc, CallGraph.edgeKeys_add_node]
  | some a =>
    cases hw : (l.graph.add_node o.span).edge_weight a o.span with
    | some w =>
      left
      simp only [hc, hw]
      have : lookupW (l.graph.add_node o.span).edges (a, o.span) = some w := hw
      unfold CallGraph.update_edge CallGraph.edgeKeys
      rw [CallGraph.edges_add_node] at this ⊢
      exact keys_setW_of_some _ _ _ _ this
    | none =>
      right
      refine ⟨(a, o.span), ?_, ?_⟩
      · have : lookupW (l.graph.add_node o.span).edges (a, o.span) = none := hw
        rwa [CallGraph.edges_add_node] at this
      · simp only [hc, hw]
        have h1 : lookupW l.graph.edges (a, o.span) = none := by
          have : lookupW (l.graph.add_node o.span).edges (a, o.span) = none := hw
          rwa [CallGraph.edges_add_node] at this
        unfold CallGraph.add_edge CallGraph.update_edge CallGraph.edgeKeys
        rw [CallGraph.edges_add_node, CallGraph.edges_add_node, CallGraph.edges_add_node]
        exact keys_setW_of_none _ _ _ h1

lemma GraphLayer.nodup_edgeKeys_on_enter (l : GraphLayer) (o : Obs)
    (h : l.graph.edgeKeys.Nodup) : (l.on_enter o.span o.parent).graph.edgeKeys.Nodup := by
  rcases GraphLayer.edgeKeys_on_enter l o with h1 | ⟨p, hnone, h1⟩
  · rw [h1]; exact h
  · rw [h1]
    have hp : ¬ p ∈ l.graph.edgeKeys := not_mem_keys_of_lookupW_eq_none _ _ hnone
    simp [List.nodup_append, h, hp]

lemma GraphLayer.nodup_edgeKeys_runObs (s : List Obs) (l : GraphLayer)
    (h : l.graph.edgeKeys.Nodup) : (l.runObs s).graph.edgeKeys.Nodup := by
  induction s generalizing l with
  | nil => exact h
  | cons o s ih =>
    rw [GraphLayer.runObs_cons]
    exact ih _ (GraphLayer.nodup_edgeKeys_on_enter l o h)

/-- C1: starting from an empty graph with a fixed top-node configuration,
after any finite sequence of span-entry observations there is at most one
edge per ordered pair of nodes, an edge is present for exactly the distinct
(caller, span) pairs observed (caller = parent if present, else the active
top node, else no edge), and each edge's weight is the exact number of
observations of that pair. -/
theorem c1_edge_weights_are_observation_counts (top : Option String) (s : List Obs) :
    ((layerInit top).runObs s).graph.edgeKeys.Nodup ∧
    ∀ x y : String,
      ((layerInit top).runObs s).graph.edge_weight x y
        = if countPair top s x y = 0 then none else some (countPair top s x y) := by
  constructor
  · exact GraphLayer.nodup_edgeKeys_runObs s _ (by rw [layerInit_edgeKeys]; exact List.nodup_nil)
  · intro x y
    rw [GraphLayer.edge_weight_runObs, layerInit_edge_weight, layerInit_top]
    rfl

/-! ### Top-node toggling -/

lemma GraphLayer.disable_of_some (l : GraphLayer) (X : String) (h : l.top_node = some X) :
    l.disable_top_node = { graph := l.graph.remove_node X, top_node := none } := by
  simp [GraphLayer.disable_top_node, h]

lemma GraphLayer.disable_of_none (l : GraphLayer) (h : l.top_node = none) :
    l.disable_top_node = l := by
  simp [GraphLayer.disable_top_node, h]

lemma CallGraph.contains_remove_node (g : CallGraph) (n : String) :
    (g.remove_node n).nodes.contains n = false := by
  have h : ¬ n ∈ (g.remove_node n).nodes := by
    intro hm
    unfold CallGraph.remove_node at hm
    simp only [List.mem_filter, bne_self_eq_false] at hm
    exact Bool.false_ne_true hm.2
  simpa using h

lemma countPair_top_ne (X : String) (s : List Obs) (x y : String) (hx : x ≠ X) :
    countPair (some X) s x y = countPair none s x y := by
  unfold countPair
  congr 1
  apply List.filter_congr
  intro o _
  unfold callerPair
  cases hp : o.parent with
  | some p => rfl
  | none =>
    have hne : (X, o.span) ≠ (x, y) := fun h => hx (congrArg Prod.fst h).symm
    show ((some (X, o.span) : Option (String × String)) == some (x, y))
        = ((none : Option (String × String)) == some (x, y))
    simp [hne]

lemma new_enable_edges (X : String) : (GraphLayer.new.enable_top_node X).graph.edges = [] := rfl

lemma new_enable_top (X : String) : (GraphLayer.new.enable_top_node X).top_node = some X := rfl

/-- C3: for every observation sequence, enabling top node X, observing, then
disabling yields the same edge weights as running the observations with no
top node, except that every edge incident to X is absent; node X itself is
absent; and `disable_top_node` with no active top node is a no-op. -/
theorem c3_top_node_toggle (X : String) (s : List Obs) :
    (∀ x y : String,
      (((GraphLayer.new.enable_top_node X).runObs s).disable_top_node).graph.edge_weight x y
        = if x = X ∨ y = X then none
          else (GraphLayer.new.runObs s).graph.edge_weight x y) ∧
    ((((GraphLayer.new.enable_top_node X).runObs s).disable_top_node).graph.nodes.contains X
      = false) ∧
    (GraphLayer.new.runObs s).disable_top_node = GraphLayer.new.runObs s := by
  have hTop : ((GraphLayer.new.enable_top_node X).runObs s).top_node = some X := by
    rw [GraphLayer.runObs_top, new_enable_top]
  rw [GraphLayer.disable_of_some _ _ hTop]
  refine ⟨?_, ?_, ?_⟩
  · intro x y
    rw [CallGraph.edge_weight_remove_node]
    by_cases hxy : x = X ∨ y = X
    · simp [hxy]
    · push_neg at hxy
      rw [if_neg (by tauto), if_neg (by tauto)]
      rw [GraphLayer.edge_weight_runObs, GraphLayer.edge_weight_runObs]
      have e1 : (GraphLayer.new.enable_top_node X).graph.edge_weight x y = none := rfl
      have e2 : GraphLayer.new.graph.edge_weight x y = none := rfl
      rw [e1, e2, new_enable_top, show GraphLayer.new.top_node = none from rfl]
      rw [countPair_top_ne X s x y hxy.1]
  · exact CallGraph.contains_remove_node _ _
  · exact GraphLayer.disable_of_none _ (by rw [GraphLayer.runObs_top]; rfl)

/-! ### Node membership lemmas and enable_top_node algebra -/

lemma CallGraph.graph_fields_eq (a b : CallGraph) (h1 : a.nodes = b.nodes) (h2 : a.edges = b.edges) :
    a = b := by
  cases a; cases b; simp_all

lemma GraphLayer.layer_fields_eq (a b : GraphLayer) (h1 : a.graph = b.graph)
    (h2 : a.top_node = b.top_node) : a = b := by
  cases a; cases b; simp_all

lemma CallGraph.mem_add_node (g : CallGraph) (n m : String) :
    m ∈ (g.add_node n).nodes ↔ m ∈ g.nodes ∨ m = n := by
  unfold CallGraph.add_node
  by_cases h : n ∈ g.nodes
  · rw [if_pos h]
    constructor
    · exact Or.inl
    · rintro (hm | rfl) <;> [exact hm; exact h]
  · rw [if_neg h]
    simp

lemma CallGraph.mem_remove_node (g : CallGraph) (n m : String) :
    m ∈ (g.remove_node n).nodes ↔ m ∈ g.nodes ∧ m ≠ n := by
  unfold CallGraph.remove_node
  simp [List.mem_filter]

lemma contains_congr (l1 l2 : List String) (n : String) (h : n ∈ l1 ↔ n ∈ l2) :
    l1.contains n = l2.contains n := by
  by_cases hm : n ∈ l1
  · have h2 := h.mp hm
    have e1 : l1.contains n = true := by simpa using hm
    have e2 : l2.contains n = true := by simpa using h2
    rw [e1, e2]
  · have h2 : ¬ n ∈ l2 := fun hh => hm (h.mpr hh)
    have e1 : l1.contains n = false := by simpa using hm
    have e2 : l2.contains n = false := by simpa using h2
    rw [e1, e2]

lemma CallGraph.remove_add_remove_add (g : CallGraph) (X : String) :
    (((g.remove_node X).add_node X).remove_node X).add_node X
      = (g.remove_node X).add_node X := by
  have hA : ¬ X ∈ (g.remove_node X).nodes := by
    rw [CallGraph.mem_remove_node]; simp
  have hB : (g.remove_node X).add_node X
      = { nodes := (g.remove_node X).nodes ++ [X], edges := (g.remove_node X).edges } := by
    unfold CallGraph.add_node
    rw [if_neg hA]
  have hC : ((g.remove_node X).add_node X).remove_node X = g.remove_node X := by
    rw [hB]
    unfold CallGraph.remove_node
    apply CallGraph.graph_fields_eq
    · simp [List.filter_append, List.filter_filter]
    · simp [List.filter_filter]
  rw [hC]

/-- C2 counterexample: `enable_top_node("X")` is NOT idempotent on every
state: if an edge incident to X exists (here from observing span "X" with
parent "a"), a second `enable_top_node("X")` removes it, since the call first
disables the currently active top node X, deleting node X and its incident edges. -/
theorem c2_counterexample :
    ¬ (((GraphLayer.new.on_enter "X" (some "a")).enable_top_node "X").enable_top_node "X"
        = (GraphLayer.new.on_enter "X" (some "a")).enable_top_node "X") := by
  decide

/-- C2 (amended): a second `enable_top_node(X)` call keeps X as the active
top node and preserves node membership, but removes every edge incident to
X (so it changes the graph exactly when such an edge exists); from the
second call onward the operation is a fixed point — a third call leaves the
state exactly as after the second. -/
theorem c2_enable_top_node_second_call (l : GraphLayer) (X : String) :
    (((l.enable_top_node X).enable_top_node X).top_node
        = (l.enable_top_node X).top_node) ∧
    (∀ n : String, ((l.enable_top_node X).enable_top_node X).graph.nodes.contains n
        = (l.enable_top_node X).graph.nodes.contains n) ∧
    (((l.enable_top_node X).enable_top_node X).graph.edges
        = (l.enable_top_node X).graph.edges.filter
            (fun e => e.1.1 != X && e.1.2 != X)) ∧
    ((l.enable_top_node X).enable_top_node X).enable_top_node X
        = (l.enable_top_node X).enable_top_node X := by
  have hS1g : (l.enable_top_node X).graph = (l.disable_top_node).graph.add_node X := rfl
  have hS2g : ((l.enable_top_node X).enable_top_node X).graph
      = ((l.enable_top_node X).graph.remove_node X).add_node X := by
    show ((l.enable_top_node X).disable_top_node).graph.add_node X = _
    rw [GraphLayer.disable_of_some _ X rfl]
  refine ⟨rfl, ?_, ?_, ?_⟩
  · intro n
    apply contains_congr
    rw [hS2g, CallGraph.mem_add_node, CallGraph.mem_remove_node]
    have hX1 : X ∈ (l.enable_top_node X).graph.nodes := by
      rw [hS1g, CallGraph.mem_add_node]
      exact Or.inr rfl
    constructor
    · rintro (⟨h1, _⟩ | rfl)
      · exact h1
      · exact hX1
    · intro h1
      by_cases hnX : n = X
      · exact Or.inr hnX
      · exact Or.inl ⟨h1, hnX⟩
  · rw [hS2g, CallGraph.edges_add_node]
    rfl
  · apply GraphLayer.layer_fields_eq
    · have hS3g : (((l.enable_top_node X).enable_top_node X).enable_top_node X).graph
          = ((((l.enable_top_node X).enable_top_node X)).graph.remove_node X).add_node X := by
        show (((l.enable_top_node X).enable_top_node X).disable_top_node).graph.add_node X = _
        rw [GraphLayer.disable_of_some _ X rfl]
      rw [hS3g, hS2g]
      exact CallGraph.remove_add_remove_add _ X
    · rfl

/-! ### Flush guard behaviour -/

/-- C4: if `flush` finds the shared graph's lock poisoned, it returns
`Ok(())` without writing anything when the calling thread is already
panicking, and panics (never returns an error or serializes) otherwise. -/
theorem c4_flush_poisoned_lock (g : FlushGuard) :
    g.flush true true = (FlushResult.returned (.ok ()), g) ∧
    g.flush true false = (FlushResult.panicked, g) := by
  constructor <;> rfl

/-- C5: dropping a `FlushGuard` (with a healthy lock) performs exactly one
flush: it never panics out of the destructor, appends exactly one serialized
snapshot when the write succeeds, and reports any flush error through
`Error::report` instead of propagating it. -/
theorem c5_drop_flushes_once_and_reports (g : FlushGuard) (panicking : Bool) :
    ((g.dropGuard false panicking).isPanic = false) ∧
    ((g.dropGuard false panicking).reported
        = if g.writer.writeFails then some ⟨.FlushFile "write failed"⟩
          else if g.writer.flushFails then some ⟨.FlushFile "flush failed"⟩
          else none) ∧
    ((g.dropGuard false panicking).writtenOut
        = some (if g.writer.writeFails then g.writer.written
                else g.writer.written ++ [g.graph.dot ++ "\n"])) := by
  unfold FlushGuard.dropGuard FlushGuard.flush
  cases hw : g.writer.writeFails
  · cases hf : g.writer.flushFails
    · simp [hw, hf, DropResult.isPanic, DropResult.reported, DropResult.writtenOut]
    · simp [hw, hf, DropResult.isPanic, DropResult.reported, DropResult.writtenOut]
  · simp [hw, DropResult.isPanic, DropResult.reported, DropResult.writtenOut]

/-- C6: two consecutive `flush` calls with no intervening graph mutation,
on a sink that accepts the bytes, both succeed and append byte-identical
serialized snapshots. -/
theorem c6_flush_idempotent_output (g : FlushGuard)
    (h1 : g.writer.writeFails = false) (h2 : g.writer.flushFails = false) :
    (g.flush false false).1 = FlushResult.returned (.ok ()) ∧
    ((g.flush false false).2.flush false false).1 = FlushResult.returned (.ok ()) ∧
    ((g.flush false false).2.flush false false).2.writer.written
      = g.writer.written ++ [g.graph.dot ++ "\n", g.graph.dot ++ "\n"] := by
  unfold FlushGuard.flush
  simp [h1, h2]

/-- C6 witness at a concrete guard whose sink accepts the bytes. -/
theorem c6_flush_idempotent_output_witness :
    ((⟨CallGraph.new, ⟨[], false, false⟩⟩ : FlushGuard).flush false false).1
      = FlushResult.returned (.ok ()) ∧
    (((⟨CallGraph.new, ⟨[], false, false⟩⟩ : FlushGuard).flush false false).2.flush
        false false).1 = FlushResult.returned (.ok ()) ∧
    (((⟨CallGraph.new, ⟨[], false, false⟩⟩ : FlushGuard).flush false false).2.flush
        false false).2.writer.written
      = [] ++ [CallGraph.new.dot ++ "\n", CallGraph.new.dot ++ "\n"] :=
  c6_flush_idempotent_output ⟨CallGraph.new, ⟨[], false, false⟩⟩ rfl rfl

/-- C7: `with_file` fails exactly when file creation fails, returning a
`CreateFile` error that names the path, with nothing serialized or written;
on success it returns a fresh empty layer with no top node and a guard bound
to the layer's graph over a sink with nothing written yet. -/
theorem c7_with_file (path ioErr : String) (wf ff : Bool) :
    GraphLayer.with_file false path ioErr wf ff
        = .error ⟨.CreateFile path ioErr⟩ ∧
    GraphLayer.with_file true path ioErr wf ff
        = .ok ({ graph := CallGraph.new, top_node := none },
            { graph := CallGraph.new,
              writer := { written := [], writeFails := wf, flushFails := ff } }) ∧
    CallGraph.new.nodes = [] ∧ CallGraph.new.edges = [] := by
  refine ⟨rfl, rfl, rfl, rfl⟩

/-- C9: `flush` never modifies the graph, and it only ever appends to the
sink — exactly one serialized snapshot on the success path, nothing on the
poisoned or failed-write paths; previously written bytes are never reset. -/
theorem c9_flush_frame (g : FlushGuard) (poisoned panicking : Bool) :
    ((g.flush poisoned panicking).2.graph = g.graph) ∧
    ((g.flush poisoned panicking).2.writer.written
        = if poisoned || g.writer.writeFails then g.writer.written
          else g.writer.written ++ [g.graph.dot ++ "\n"]) := by
  unfold FlushGuard.flush
  cases hp : poisoned
  · cases hw : g.writer.writeFails
    · cases hf : g.writer.flushFails <;> simp [hw, hf]
    · simp [hw]
  · cases hk : panicking <;> simp

/-! ### Node-set characterization -/

/-- C8 counterexample: after `observe("X", None); enable_top_node("X");
disable_top_node()` the node set is empty although span "X" was entered and
no top node is active, so the node set does not contain a node for every
span name ever entered under arbitrary operation sequences. -/
theorem c8_counterexample :
    (GraphLayer.new.runOps [Op.observe "X" none, Op.enable "X", Op.disable]).graph.nodes = []
      ∧ (GraphLayer.new.runOps [Op.observe "X" none, Op.enable "X", Op.disable]).top_node
        = none := by
  decide

lemma bool_eq_of_iff (a b : Bool) (h : a = true ↔ b = true) : a = b := by
  cases a <;> cases b <;> simp_all

lemma CallGraph.nodup_add_node (g : CallGraph) (n : String) (h : g.nodes.Nodup) :
    (g.add_node n).nodes.Nodup := by
  by_cases hc : n ∈ g.nodes
  · simpa [CallGraph.add_node, hc] using h
  · simp [CallGraph.add_node, hc, List.nodup_append, h, hc]

lemma GraphLayer.nodup_nodes_on_enter (l : GraphLayer) (o : Obs)
    (h : l.graph.nodes.Nodup) : (l.on_enter o.span o.parent).graph.nodes.Nodup := by
  unfold GraphLayer.on_enter
  cases hc : o.parent.orElse (fun _ => l.top_node) with
  | none => simpa using CallGraph.nodup_add_node l.graph o.span h
  | some a =>
    cases hw : (l.graph.add_node o.span).edge_weight a o.span with
    | some w =>
      simp only [hw]
      exact CallGraph.nodup_add_node l.graph o.span h
    | none =>
      simp only [hw]
      unfold CallGraph.add_edge CallGraph.update_edge
      show ((((l.graph.add_node o.span).add_node a).add_node o.span).nodes).Nodup
      exact CallGraph.nodup_add_node _ _
        (CallGraph.nodup_add_node _ _ (CallGraph.nodup_add_node _ _ h))

lemma GraphLayer.nodup_nodes_runObs (s : List Obs) (l : GraphLayer)
    (h : l.graph.nodes.Nodup) : (l.runObs s).graph.nodes.Nodup := by
  induction s generalizing l with
  | nil => exact h
  | cons o s ih =>
    rw [GraphLayer.runObs_cons]
    exact ih _ (GraphLayer.nodup_nodes_on_enter l o h)

/-- Every edge's endpoints are nodes of the graph (an invariant of all
reachable graphs; needed because the weight-increment path of `on_enter`
does not re-insert the caller's node). -/
def edgeEndpointsIn (g : CallGraph) : Prop :=
  ∀ x y : String, g.edge_weight x y ≠ none → x ∈ g.nodes ∧ y ∈ g.nodes

lemma GraphLayer.mem_nodes_on_enter (l : GraphLayer) (o : Obs)
    (hinv : edgeEndpointsIn l.graph) (m : String) :
    m ∈ (l.on_enter o.span o.parent).graph.nodes ↔
      m ∈ l.graph.nodes ∨ m = o.span ∨
        (o.parent.orElse (fun _ => l.top_node)) = some m := by
  unfold GraphLayer.on_enter
  cases hc : o.parent.orElse (fun _ => l.top_node) with
  | none =>
    simp only [hc]
    rw [CallGraph.mem_add_node]
    simp
  | some a =>
    cases hw : (l.graph.add_node o.span).edge_weight a o.span with
    | some w =>
      simp only [hc, hw]
      show m ∈ (l.graph.add_node o.span).nodes ↔ _
      rw [CallGraph.mem_add_node]
      have ha : a ∈ l.graph.nodes := by
        rw [CallGraph.edge_weight_add_node] at hw
        exact (hinv a o.span (by rw [hw]; exact fun hne => Option.noConfusion hne)).1
      constructor
      · rintro (h1 | rfl)
        · exact Or.inl h1
        · exact Or.inr (Or.inl rfl)
      · rintro (h1 | rfl | h3)
        · exact Or.inl h1
        · exact Or.inr rfl
        · exact Or.inl (Option.some.inj h3 ▸ ha)
    | none =>
      simp only [hc, hw]
      show m ∈ ((((l.graph.add_node o.span).add_node a).add_node o.span).update_edge
          (a, o.span) 1).nodes ↔ _
      show m ∈ (((l.graph.add_node o.span).add_node a).add_node o.span).nodes ↔ _
      rw [CallGraph.mem_add_node, CallGraph.mem_add_node, CallGraph.mem_add_node]
      constructor
      · rintro (((h1 | rfl) | rfl) | rfl)
        · exact Or.inl h1
        · exact Or.inr (Or.inl rfl)
        · exact Or.inr (Or.inr rfl)
        · exact Or.inr (Or.inl rfl)
      · rintro (h1 | rfl | h3)
        · exact Or.inl (Or.inl (Or.inl h1))
        · exact Or.inr rfl
        · exact Or.inl (Or.inr (Option.some.inj h3).symm)

lemma GraphLayer.edgeEndpointsIn_on_enter (l : GraphLayer) (o : Obs)
    (h : edgeEndpointsIn l.graph) : edgeEndpointsIn (l.on_enter o.span o.parent).graph := by
  intro x y hne
  rw [GraphLayer.edge_weight_on_enter] at hne
  by_cases hc : callerPair l.top_node o = some (x, y)
  · have hxy : (o.parent.orElse (fun _ => l.top_node)) = some x ∧ y = o.span := by
      unfold callerPair at hc
      cases hp : o.parent.orElse (fun _ => l.top_node) with
      | none => rw [hp] at hc; exact Option.noConfusion hc
      | some a =>
        rw [hp] at hc
        simp only [Option.map_some'] at hc
        have h2 := Option.some.inj hc
        rw [Prod.mk.injEq] at h2
        exact ⟨congrArg some h2.1, h2.2.symm⟩
    obtain ⟨hx, hy⟩ := hxy
    constructor
    · exact (GraphLayer.mem_nodes_on_enter l o h x).mpr (Or.inr (Or.inr hx))
    · exact (GraphLayer.mem_nodes_on_enter l o h y).mpr (Or.inr (Or.inl hy))
  · rw [if_neg hc] at hne
    obtain ⟨h1, h2⟩ := h x y hne
    exact ⟨(GraphLayer.mem_nodes_on_enter l o h x).mpr (Or.inl h1),
      (GraphLayer.mem_nodes_on_enter l o h y).mpr (Or.inl h2)⟩

lemma GraphLayer.mem_nodes_runObs (s : List Obs) (l : GraphLayer)
    (hinv : edgeEndpointsIn l.graph) (m : String) :
    m ∈ (l.runObs s).graph.nodes ↔
      m ∈ l.graph.nodes ∨
        ∃ o ∈ s, m = o.span ∨ (o.parent.orElse (fun _ => l.top_node)) = some m := by
  induction s generalizing l with
  | nil => simp [GraphLayer.runObs]
  | cons o s ih =>
    rw [GraphLayer.runObs_cons,
      ih _ (GraphLayer.edgeEndpointsIn_on_enter l o hinv),
      GraphLayer.mem_nodes_on_enter l o hinv, GraphLayer.on_enter_top]
    simp only [List.mem_cons]
    constructor
    · rintro ((h1 | h2 | h3) | ⟨o', ho', hP⟩)
      · exact Or.inl h1
      · exact Or.inr ⟨o, Or.inl rfl, Or.inl h2⟩
      · exact Or.inr ⟨o, Or.inl rfl, Or.inr h3⟩
      · exact Or.inr ⟨o', Or.inr ho', hP⟩
    · rintro (h1 | ⟨o', ho' | ho', hP⟩)
      · exact Or.inl (Or.inl h1)
      · subst ho'
        rcases hP with h2 | h3
        · exact Or.inl (Or.inr (Or.inl h2))
        · exact Or.inl (Or.inr (Or.inr h3))
      · exact Or.inr ⟨o', ho', hP⟩

lemma layerInit_mem_nodes (top : Option String) (m : String) :
    m ∈ (layerInit top).graph.nodes ↔ top = some m := by
  cases top with
  | none =>
    show m ∈ ([] : List String) ↔ _
    simp
  | some t =>
    show m ∈ [t] ↔ _
    simp [eq_comm]

lemma layerInit_edgeEndpointsIn (top : Option String) :
    edgeEndpointsIn (layerInit top).graph := by
  intro x y hne
  rw [layerInit_edge_weight] at hne
  exact absurd rfl hne

/-- C8 (amended): starting from an empty graph with a fixed top-node
configuration, after any sequence of observations the node set has no
duplicates and contains exactly: every span name entered, every parent name
observed, and the top node if one is enabled.  (Under arbitrary interleaved
top-node toggling the original claim fails, see the counterexample.) -/
theorem c8_node_set (top : Option String) (s : List Obs) :
    ((layerInit top).runObs s).graph.nodes.Nodup ∧
    ∀ n : String,
      ((layerInit top).runObs s).graph.nodes.contains n
        = (s.any (fun o => o.span == n) || s.any (fun o => o.parent == some n)
            || top == some n) := by
  constructor
  · apply GraphLayer.nodup_nodes_runObs
    cases top with
    | none => exact List.nodup_nil
    | some t =>
      show ([t] : List String).Nodup
      simp
  · intro n
    apply bool_eq_of_iff
    have hmem := GraphLayer.mem_nodes_runObs s (layerInit top)
      (layerInit_edgeEndpointsIn top) n
    rw [layerInit_mem_nodes, layerInit_top] at hmem
    constructor
    · intro hcont
      have hn : n ∈ ((layerInit top).runObs s).graph.nodes := by simpa using hcont
      rcases hmem.mp hn with htop | ⟨o, ho, hs | hp⟩
      · simp [htop]
      · have : s.any (fun o => o.span == n) = true :=
          List.any_eq_true.mpr ⟨o, ho, by simp [hs]⟩
        simp [this]
      · cases hpp : o.parent with
        | some p =>
          rw [hpp] at hp
          have hpn : p = n := Option.some.inj hp
          have : s.any (fun o => o.parent == some n) = true :=
            List.any_eq_true.mpr ⟨o, ho, by simp [hpp, hpn]⟩
          simp [this]
        | none =>
          rw [hpp] at hp
          have : top = some n := hp
          simp [this]
    · intro hb
      have hn : n ∈ ((layerInit top).runObs s).graph.nodes := by
        apply hmem.mpr
        simp only [Bool.or_eq_true, List.any_eq_true] at hb
        rcases hb with (⟨o, ho, hspan⟩ | ⟨o, ho, hpar⟩) | htop
        · refine Or.inr ⟨o, ho, Or.inl ?_⟩
          exact (beq_iff_eq.mp hspan).symm
        · refine Or.inr ⟨o, ho, Or.inr ?_⟩
          have hpe : o.parent = some n := beq_iff_eq.mp hpar
          rw [hpe]
          rfl
        · exact Or.inl (beq_iff_eq.mp htop)
      simpa using hn

/-! ### Edge-weight positivity and monotonicity -/

/-- All stored edge weights are at least 1. -/
def weightsPos (g : CallGraph) : Prop := ∀ e ∈ g.edges, 1 ≤ e.2

lemma weightsPos_setW (es : Edges) (p : String × String) (w : Nat)
    (h : ∀ e ∈ es, 1 ≤ e.2) (hw : 1 ≤ w) : ∀ e ∈ setW es p w, 1 ≤ e.2 := by
  induction es with
  | nil =>
    intro f hf
    simp only [setW, List.mem_singleton] at hf
    rw [hf]
    exact hw
  | cons e es ih =>
    intro f hf
    by_cases hep : e.1 = p
    · simp only [setW, if_pos hep, List.mem_cons] at hf
      rcases hf with rfl | hf
      · exact hw
      · exact h f (List.mem_cons_of_mem _ hf)
    · simp only [setW, if_neg hep, List.mem_cons] at hf
      rcases hf with rfl | hf
      · exact h f (List.mem_cons_self _ _)
      · exact ih (fun e' he' => h e' (List.mem_cons_of_mem _ he')) f hf

lemma weightsPos_on_enter (l : GraphLayer) (o : Obs) (h : weightsPos l.graph) :
    weightsPos (l.on_enter o.span o.parent).graph := by
  have hadd : ∀ e ∈ (l.graph.add_node o.span).edges, 1 ≤ e.2 := by
    rw [CallGraph.edges_add_node]; exact h
  unfold GraphLayer.on_enter
  cases hc : o.parent.orElse (fun _ => l.top_node) with
  | none =>
    intro f hf
    rw [CallGraph.edges_add_node] at hf
    exact h f hf
  | some a =>
    cases hw : (l.graph.add_node o.span).edge_weight a o.span with
    | some w =>
      simp only [hw]
      intro f hf
      exact weightsPos_setW _ _ _ hadd (Nat.le_add_left 1 w) f hf
    | none =>
      simp only [hw]
      intro f hf
      unfold CallGraph.add_edge CallGraph.update_edge at hf
      simp only [CallGraph.edges_add_node] at hf
      exact weightsPos_setW _ _ _ h (Nat.le_refl 1) f hf

lemma weightsPos_disable (l : GraphLayer) (h : weightsPos l.graph) :
    weightsPos l.disable_top_node.graph := by
  cases ht : l.top_node with
  | none => rw [GraphLayer.disable_of_none l ht]; exact h
  | some X =>
    rw [GraphLayer.disable_of_some l X ht]
    intro f hf
    unfold CallGraph.remove_node at hf
    simp only [List.mem_filter] at hf
    exact h f hf.1

lemma weightsPos_apply (op : Op) (l : GraphLayer) (h : weightsPos l.graph) :
    weightsPos (op.apply l).graph := by
  cases op with
  | observe s p => exact weightsPos_on_enter l ⟨s, p⟩ h
  | enable n =>
    intro f hf
    show 1 ≤ f.2
    unfold Op.apply GraphLayer.enable_top_node at hf
    simp only [CallGraph.edges_add_node] at hf
    exact weightsPos_disable l h f hf
  | disable => exact weightsPos_disable l h

lemma weightsPos_runOps (ops : List Op) (l : GraphLayer) (h : weightsPos l.graph) :
    weightsPos (l.runOps ops).graph := by
  induction ops generalizing l with
  | nil => exact h
  | cons op ops ih =>
    show weightsPos ((op.apply l).runOps ops).graph
    exact ih _ (weightsPos_apply op l h)

/-- C10: every edge ever present has weight at least 1, and each operation
either leaves a pair's weight unchanged, increments it by exactly 1, or
removes the edge — the latter only as an incident edge of a removed top
node; no operation creates a weight-0 edge or writes a smaller weight. -/
theorem c10_weight_invariants :
    (∀ ops : List Op,
      (GraphLayer.new.runOps ops).graph.edges.all (fun e => decide (1 ≤ e.2)) = true) ∧
    (∀ (st : GraphLayer) (op : Op) (x y : String),
      (op.apply st).graph.edge_weight x y = st.graph.edge_weight x y ∨
      (op.apply st).graph.edge_weight x y
          = some ((st.graph.edge_weight x y).getD 0 + 1) ∨
      ((op.apply st).graph.edge_weight x y = none ∧
        ∃ X, st.top_node = some X ∧ (x = X ∨ y = X) ∧ op.removesTop = true)) := by
  constructor
  · intro ops
    rw [List.all_eq_true]
    intro e he
    rw [decide_eq_true_eq]
    exact weightsPos_runOps ops GraphLayer.new (by intro f hf; cases hf) e he
  · intro st op x y
    cases op with
    | observe sp pa =>
      have hstep := GraphLayer.edge_weight_on_enter st ⟨sp, pa⟩ x y
      by_cases hc : callerPair st.top_node ⟨sp, pa⟩ = some (x, y)
      · rw [if_pos hc] at hstep
        exact Or.inr (Or.inl hstep)
      · rw [if_neg hc] at hstep
        exact Or.inl hstep
    | enable n =>
      cases ht : st.top_node with
      | none =>
        have h0 : ((Op.enable n).apply st).graph.edge_weight x y
            = st.graph.edge_weight x y := by
          show ((st.disable_top_node).graph.add_node n).edge_weight x y = _
          rw [CallGraph.edge_weight_add_node, GraphLayer.disable_of_none st ht]
        rw [h0]
        exact Or.inl rfl
      | some X =>
        have h0 : ((Op.enable n).apply st).graph.edge_weight x y
            = if x = X ∨ y = X then none else st.graph.edge_weight x y := by
          show ((st.disable_top_node).graph.add_node n).edge_weight x y = _
          rw [CallGraph.edge_weight_add_node, GraphLayer.disable_of_some st X ht]
          exact CallGraph.edge_weight_remove_node _ _ _ _
        by_cases hxy : x = X ∨ y = X
        · rw [h0, if_pos hxy]
          exact Or.inr (Or.inr ⟨rfl, X, rfl, hxy, rfl⟩)
        · rw [h0, if_neg hxy]
          exact Or.inl rfl
    | disable =>
      cases ht : st.top_node with
      | none =>
        have h0 : (Op.disable.apply st).graph.edge_weight x y
            = st.graph.edge_weight x y := by
          show (st.disable_top_node).graph.edge_weight x y = _
          rw [GraphLayer.disable_of_none st ht]
        rw [h0]
        exact Or.inl rfl
      | some X =>
        have h0 : (Op.disable.apply st).graph.edge_weight x y
            = if x = X ∨ y = X then none else st.graph.edge_weight x y := by
          show (st.disable_top_node).graph.edge_weight x y = _
          rw [GraphLayer.disable_of_some st X ht]
          exact CallGraph.edge_weight_remove_node _ _ _ _
        by_cases hxy : x = X ∨ y = X
        · rw [h0, if_pos hxy]
          exact Or.inr (Or.inr ⟨rfl, X, rfl, hxy, rfl⟩)
        · rw [h0, if_neg hxy]
          exact Or.inl rfl
